import Mathlib

/-!
Shallow embedding of the server actions of the luckydraw-app repository
(src/actions/unifiedTokenActions.ts and the referral-actions module) and
proofs about them.

Modelling conventions:
* Firestore documents live in association lists `List (DocId × α)`; a lookup
  returns the first binding, and newly created documents (addDoc / a fresh
  doc ref inside a transaction) are appended at the end with an id derived
  from a counter, so existing bindings are never shadowed.
* `Timestamp.now()` is a parameter `now : Time` (milliseconds as ℕ).
* JavaScript numbers are modelled as rationals (ℚ).
* Each action takes a flag `fail : Bool` modelling an exception thrown by
  the database layer inside the try block: when it is true the action
  returns exactly its catch-branch value.  A Firestore `updateDoc` or
  `transaction.update` on a document that does not exist also throws, which
  likewise lands in the catch branch; transactions are all-or-nothing.
* Free-form token metadata (Record<string, any>) is not modelled: no
  statement below depends on it.
* unifiedTokenActions.ts never imports increment from firebase/firestore
  (its import list stops at writeBatch), so the increment(...) calls in the
  switch of approveTokenAction throw a ReferenceError inside the
  transaction for every type except raffle_entry; per the convention above
  the transaction aborts with nothing written and the call returns its
  catch value.  The referral module does import increment, so its writers
  are unaffected.
-/

abbrev DocId := String
abbrev Time := ℕ
abbrev Amount := ℚ

/-- Token types of the unified token system (TokenType in src/types). -/
inductive TokenType where
  | deposit
  | withdrawal
  | bonus
  | referral_commission
  | cashback
  | raffle_entry
  deriving DecidableEq, Repr

/-- Token statuses (TokenStatus in src/types). -/
inductive TokenStatus where
  | pending
  | approved
  | rejected
  | expired
  deriving DecidableEq, Repr

/-- A document of the unifiedTokens collection (UnifiedToken in src/types). -/
structure UnifiedToken where
  userId : DocId
  type : TokenType
  amount : Amount
  status : TokenStatus
  createdAt : Time
  expiresAt : Option Time := none
  updatedAt : Option Time := none
  approvedAt : Option Time := none
  approvedBy : Option DocId := none
  adminNotes : Option String := none
  rejectedAt : Option Time := none
  rejectedBy : Option DocId := none
  rejectionReason : Option String := none
  expiredAt : Option Time := none
  deriving DecidableEq, Repr

/-- The embedded referralStats aggregate of a user document. -/
structure ReferralStats where
  totalReferrals : ℕ := 0
  totalCommissions : Amount := 0
  pendingCommissions : Amount := 0
  approvedCommissions : Amount := 0
  lastReferralDate : Option Time := none
  deriving DecidableEq, Repr

/-- A document of the users collection.  A numeric field that is absent in
Firestore behaves as 0 under increment, so plain ℚ fields model it; the
referralStats map may genuinely be absent (getUserReferralStatsAction
substitutes a default object), hence the Option. -/
structure User where
  balance : Amount := 0
  referralCode : Option String := none
  referredBy : Option DocId := none
  referralProcessedAt : Option Time := none
  referralStats : Option ReferralStats := none
  depositTotal : Amount := 0
  withdrawalTotal : Amount := 0
  bonusTotal : Amount := 0
  referralCommissionTotal : Amount := 0
  cashbackTotal : Amount := 0
  email : Option String := none
  displayName : Option String := none
  totalDeposits : Amount := 0
  deriving DecidableEq, Repr

/-- A document of the legacy transactions collection. -/
structure LegacyTransaction where
  userId : DocId
  type : TokenType
  amount : Amount
  status : TokenStatus
  createdAt : Option Time := none
  approvedAt : Option Time := none
  approvedBy : Option DocId := none
  migratedToToken : Option DocId := none
  migratedAt : Option Time := none
  migratedBy : Option DocId := none
  deriving DecidableEq, Repr

/-- The database state: three collections plus the id counter feeding fresh
document ids. -/
structure DB where
  unifiedTokens : List (DocId × UnifiedToken) := []
  users : List (DocId × User) := []
  transactions : List (DocId × LegacyTransaction) := []
  nextId : ℕ := 0
  deriving DecidableEq, Repr

/-- Fresh document id generated for the n-th created document. -/
def freshId (n : ℕ) : DocId := "auto" ++ toString n

/-- Firestore getDoc on an association-list collection: the first binding of
the id, if any. -/
def findDoc (col : List (DocId × α)) (i : DocId) : Option α :=
  match col with
  | [] => none
  | (j, d) :: rest => if j = i then some d else findDoc rest i

/-- Firestore updateDoc: rewrite the first binding of the id with f. -/
def updateFirst (col : List (DocId × α)) (i : DocId) (f : α → α) : List (DocId × α) :=
  match col with
  | [] => []
  | (j, d) :: rest =>
    if j = i then (j, f d) :: rest else (j, d) :: updateFirst rest i f

/-- Whether a document with the given id exists. -/
def hasDoc (col : List (DocId × α)) (i : DocId) : Bool :=
  (findDoc col i).isSome

/-- Insert x into a list already sorted by descending key. -/
def insertDescBy (key : α → ℕ) (x : α) : List α → List α
  | [] => [x]
  | y :: ys => if key y ≤ key x then x :: y :: ys else y :: insertDescBy key x ys

/-- Insertion sort by descending key: models an orderBy desc clause. -/
def sortDescBy (key : α → ℕ) : List α → List α
  | [] => []
  | x :: xs => insertDescBy key x (sortDescBy key xs)

/-- The stats object computed by getTokenStatisticsAction. -/
structure TokenStatistics where
  total : ℕ
  pending : ℕ
  approved : ℕ
  rejected : ℕ
  expired : ℕ
  byDeposit : ℕ
  byWithdrawal : ℕ
  byBonus : ℕ
  byReferralCommission : ℕ
  byCashback : ℕ
  byRaffleEntry : ℕ
  amountPending : Amount
  amountApproved : Amount
  amountRejected : Amount
  deriving DecidableEq, Repr

/-- The per-referred-user projection returned by getUserReferralChainAction. -/
structure ReferredUser where
  id : DocId
  email : Option String
  displayName : Option String
  referralProcessedAt : Option Time
  totalDeposits : Amount
  deriving DecidableEq, Repr

/-- The analysis object computed by analyzeReferralPerformanceAction. -/
structure ReferralAnalysis where
  recentReferrals : ℕ
  totalCommissionTokens : ℕ
  totalCommissionAmount : Amount
  approvedCommissions : ℕ
  approvalRate : Amount
  averageCommissionAmount : Amount
  deriving DecidableEq, Repr

/-- Return values of the server actions.  The ok-constructors are the
success:true shapes, each carrying the extra payload of its action;
failure e is the uniform catch-branch shape with success:false and a
localized error string; statsOrNull is the odd one out,
getUserReferralStatsAction, whose signature is ReferralStats-or-null. -/
inductive ActionResult where
  | okUnit
  | okTokenId (tokenId : DocId)
  | okToken (tokenId : DocId) (token : UnifiedToken)
  | okTokens (tokens : List (DocId × UnifiedToken))
  | okDeleted (deletedCount : ℕ)
  | okCommission (commissionAmount : Amount)
  | okStats (stats : TokenStatistics)
  | okReferredUsers (referredUsers : List ReferredUser)
  | okCommissions (commissions : List (DocId × UnifiedToken))
  | okAnalysis (analysis : ReferralAnalysis)
  | statsOrNull (stats : Option ReferralStats)
  | failure (error : String)
  deriving DecidableEq, Repr

/-- createUnifiedTokenAction.  The expiresAt expression guards on JS
truthiness of expiresInDays, so 0 behaves like undefined. -/
def createUnifiedTokenAction (fail : Bool) (db : DB) (now : Time)
    (userId : DocId) (ty : TokenType) (amount : Amount)
    (expiresInDays : Option ℕ) : DB × ActionResult :=
  if fail then (db, .failure "Token oluşturulamadı")
  else
    let tokenData : UnifiedToken :=
      { userId := userId
        type := ty
        amount := amount
        status := .pending
        createdAt := now
        expiresAt :=
          match expiresInDays with
          | some d => if d = 0 then none else some (now + d * 24 * 60 * 60 * 1000)
          | none => none }
    ({ db with
        unifiedTokens := db.unifiedTokens ++ [(freshId db.nextId, tokenData)]
        nextId := db.nextId + 1 },
     .okTokenId (freshId db.nextId))

/-- A Partial<UnifiedToken> argument of updateUnifiedTokenAction: each field
is optionally overwritten (updateDoc merges the given fields). -/
structure TokenUpdate where
  userId : Option DocId := none
  type : Option TokenType := none
  amount : Option Amount := none
  status : Option TokenStatus := none
  createdAt : Option Time := none
  expiresAt : Option Time := none
  approvedAt : Option Time := none
  approvedBy : Option DocId := none
  adminNotes : Option String := none
  rejectedAt : Option Time := none
  rejectedBy : Option DocId := none
  rejectionReason : Option String := none
  expiredAt : Option Time := none
  deriving DecidableEq, Repr

/-- Merge a TokenUpdate into a token; updatedAt is always stamped. -/
def applyTokenUpdate (now : Time) (upd : TokenUpdate) (t : UnifiedToken) : UnifiedToken :=
  { userId := upd.userId.getD t.userId
    type := upd.type.getD t.type
    amount := upd.amount.getD t.amount
    status := upd.status.getD t.status
    createdAt := upd.createdAt.getD t.createdAt
    expiresAt := (upd.expiresAt.map some).getD t.expiresAt
    updatedAt := some now
    approvedAt := (upd.approvedAt.map some).getD t.approvedAt
    approvedBy := (upd.approvedBy.map some).getD t.approvedBy
    adminNotes := (upd.adminNotes.map some).getD t.adminNotes
    rejectedAt := (upd.rejectedAt.map some).getD t.rejectedAt
    rejectedBy := (upd.rejectedBy.map some).getD t.rejectedBy
    rejectionReason := (upd.rejectionReason.map some).getD t.rejectionReason
    expiredAt := (upd.expiredAt.map some).getD t.expiredAt }

/-- updateUnifiedTokenAction: an unconditional updateDoc, which throws (into
the catch branch) only when the document does not exist. -/
def updateUnifiedTokenAction (fail : Bool) (db : DB) (now : Time)
    (tokenId : DocId) (updates : TokenUpdate) : DB × ActionResult :=
  if fail || !(hasDoc db.unifiedTokens tokenId) then
    (db, .failure "Token güncellenemedi")
  else
    ({ db with
        unifiedTokens := updateFirst db.unifiedTokens tokenId (applyTokenUpdate now updates) },
     .okUnit)

/-- getUnifiedTokenAction. -/
def getUnifiedTokenAction (fail : Bool) (db : DB) (tokenId : DocId) :
    DB × ActionResult :=
  if fail then (db, .failure "Token alınamadı")
  else
    match findDoc db.unifiedTokens tokenId with
    | none => (db, .failure "Token bulunamadı")
    | some t => (db, .okToken tokenId t)

/-- A query on unifiedTokens filtered by userId plus an extra predicate,
ordered by createdAt descending, limited to limitCount documents. -/
def queryUserTokens (db : DB) (userId : DocId) (extra : UnifiedToken → Bool)
    (limitCount : ℕ) : List (DocId × UnifiedToken) :=
  (sortDescBy (fun p => p.2.createdAt)
      (db.unifiedTokens.filter (fun p => p.2.userId == userId && extra p.2))).take
    limitCount

/-- getUserUnifiedTokensAction: the base query is rebuilt (not refined) by
each optional filter, so a status argument discards the tokenType filter. -/
def getUserUnifiedTokensAction (fail : Bool) (db : DB) (userId : DocId)
    (tokenType : Option TokenType) (status : Option TokenStatus)
    (limitCount : ℕ) : DB × ActionResult :=
  if fail then (db, .failure "Tokenlar alınamadı")
  else
    let q := queryUserTokens db userId (fun _ => true) limitCount
    let q :=
      match tokenType with
      | some ty => queryUserTokens db userId (fun t => t.type == ty) limitCount
      | none => q
    let q :=
      match status with
      | some st => queryUserTokens db userId (fun t => t.status == st) limitCount
      | none => q
    (db, .okTokens q)

/-- The per-type user update the switch of approveTokenAction intends,
reading increment(x) as the Firestore numeric field transform (add x,
missing field treated as 0) and the template literal key as the matching
<type>Total field.  It is never executed: increment is not imported in
unifiedTokenActions.ts, so every case that evaluates it throws instead. -/
def applyApproval (ty : TokenType) (amount : Amount) (u : User) : User :=
  match ty with
  | .deposit =>
    { u with balance := u.balance + amount, depositTotal := u.depositTotal + amount }
  | .bonus =>
    { u with balance := u.balance + amount, bonusTotal := u.bonusTotal + amount }
  | .referral_commission =>
    { u with balance := u.balance + amount,
             referralCommissionTotal := u.referralCommissionTotal + amount }
  | .cashback =>
    { u with balance := u.balance + amount, cashbackTotal := u.cashbackTotal + amount }
  | .withdrawal =>
    { u with balance := u.balance - amount, withdrawalTotal := u.withdrawalTotal + amount }
  | .raffle_entry => u

/-- The token update of the approval transaction. -/
def applyApprovedStamp (now : Time) (adminUserId : DocId) (notes : Option String)
    (t : UnifiedToken) : UnifiedToken :=
  { t with status := .approved, approvedAt := some now,
           approvedBy := some adminUserId, adminNotes := some (notes.getD "") }

/-- approveTokenAction: guard on pending, then one transaction approving the
token and switching on the token type.  The raffle_entry case evaluates no
increment and commits the status update alone; every other case evaluates
increment(tokenData.amount), which is not imported in this module, so the
transaction callback throws a ReferenceError, the transaction aborts with
nothing written, and the call returns its catch value. -/
def approveTokenAction (fail : Bool) (db : DB) (now : Time)
    (tokenId : DocId) (adminUserId : DocId) (notes : Option String) :
    DB × ActionResult :=
  if fail then (db, .failure "Token onaylanamadı")
  else
    match findDoc db.unifiedTokens tokenId with
    | none => (db, .failure "Token bulunamadı")
    | some tokenData =>
      if tokenData.status ≠ .pending then (db, .failure "Token zaten işlenmiş")
      else if tokenData.type = .raffle_entry then
        ({ db with
            unifiedTokens :=
              updateFirst db.unifiedTokens tokenId
                (applyApprovedStamp now adminUserId notes) },
         .okUnit)
      else (db, .failure "Token onaylanamadı")

/-- rejectTokenAction: an unconditional updateDoc with no status guard; it
reaches a token of any current status, and throws into the catch branch only
when the document does not exist. -/
def rejectTokenAction (fail : Bool) (db : DB) (now : Time)
    (tokenId : DocId) (adminUserId : DocId) (reason : String) :
    DB × ActionResult :=
  if fail || !(hasDoc db.unifiedTokens tokenId) then
    (db, .failure "Token reddedilemedi")
  else
    ({ db with
        unifiedTokens := updateFirst db.unifiedTokens tokenId (fun t =>
          { t with status := .rejected, rejectedAt := some now,
                   rejectedBy := some adminUserId, rejectionReason := some reason }) },
     .okUnit)

/-- The cleanup query predicate: expiresAt at or before now (a document
without an expiresAt field never matches an inequality filter) and status
pending. -/
def isCleanupMatch (now : Time) (t : UnifiedToken) : Bool :=
  (match t.expiresAt with
   | some e => decide (e ≤ now)
   | none => false) && t.status == .pending

/-- The batch update applied to each expired document. -/
def markExpired (now : Time) (t : UnifiedToken) : UnifiedToken :=
  { t with status := .expired, expiredAt := some now }

/-- Walk the collection in stored order marking matching documents while the
query limit budget lasts; returns the new collection and how many documents
were marked.  This is the query (filter plus limit) followed by the batch
update of the returned document refs. -/
def markExpiredDocs (now : Time) : ℕ → List (DocId × UnifiedToken) →
    List (DocId × UnifiedToken) × ℕ
  | _, [] => ([], 0)
  | 0, rest => (rest, 0)
  | b + 1, (i, t) :: rest =>
    if isCleanupMatch now t then
      let r := markExpiredDocs now b rest
      ((i, markExpired now t) :: r.1, r.2 + 1)
    else
      let r := markExpiredDocs now (b + 1) rest
      ((i, t) :: r.1, r.2)

/-- cleanupExpiredTokensAction: query up to 100 pending-and-expired tokens,
mark them expired in a batch (no deleteDoc anywhere), and report the count
as deletedCount; an empty query returns early with deletedCount 0. -/
def cleanupExpiredTokensAction (fail : Bool) (db : DB) (now : Time) :
    DB × ActionResult :=
  if fail then (db, .failure "Süresi dolmuş tokenlar temizlenemedi")
  else
    let r := markExpiredDocs now 100 db.unifiedTokens
    if r.2 = 0 then (db, .okDeleted 0)
    else ({ db with unifiedTokens := r.1 }, .okDeleted r.2)

/-- getTokenStatisticsAction. -/
def getTokenStatisticsAction (fail : Bool) (db : DB) : DB × ActionResult :=
  if fail then (db, .failure "İstatistikler alınamadı")
  else
    let allTokens := db.unifiedTokens.map (·.2)
    (db, .okStats {
      total := allTokens.length
      pending := (allTokens.filter (·.status == .pending)).length
      approved := (allTokens.filter (·.status == .approved)).length
      rejected := (allTokens.filter (·.status == .rejected)).length
      expired := (allTokens.filter (·.status == .expired)).length
      byDeposit := (allTokens.filter (·.type == .deposit)).length
      byWithdrawal := (allTokens.filter (·.type == .withdrawal)).length
      byBonus := (allTokens.filter (·.type == .bonus)).length
      byReferralCommission := (allTokens.filter (·.type == .referral_commission)).length
      byCashback := (allTokens.filter (·.type == .cashback)).length
      byRaffleEntry := (allTokens.filter (·.type == .raffle_entry)).length
      amountPending := ((allTokens.filter (·.status == .pending)).map (·.amount)).sum
      amountApproved := ((allTokens.filter (·.status == .approved)).map (·.amount)).sum
      amountRejected := ((allTokens.filter (·.status == .rejected)).map (·.amount)).sum })

/-- migrateTransactionToTokenAction: copy a legacy transaction into a new
unified token (status copied verbatim), then mark the legacy document. -/
def migrateTransactionToTokenAction (fail : Bool) (db : DB) (now : Time)
    (transactionId : DocId) (adminUserId : DocId) : DB × ActionResult :=
  if fail then (db, .failure "Migration başarısız")
  else
    match findDoc db.transactions transactionId with
    | none => (db, .failure "Transaction bulunamadı")
    | some td =>
      let tokenData : UnifiedToken :=
        { userId := td.userId, type := td.type, amount := td.amount,
          status := td.status, createdAt := td.createdAt.getD now,
          approvedAt := td.approvedAt, approvedBy := td.approvedBy }
      let tokenId := freshId db.nextId
      ({ db with
          unifiedTokens := db.unifiedTokens ++ [(tokenId, tokenData)]
          nextId := db.nextId + 1
          transactions := updateFirst db.transactions transactionId (fun t =>
            { t with migratedToToken := some tokenId, migratedAt := some now,
                     migratedBy := some adminUserId }) },
       .okTokenId tokenId)

/-- The users query of processDepositReferralAction: referralCode equality,
limit 1. -/
def queryReferrer (db : DB) (code : String) : Option (DocId × User) :=
  (db.users.filter (fun p => p.2.referralCode == some code)).head?

/-- The fixed commission rate of processDepositReferralAction. -/
def commissionRate : Amount := 5 / 100

/-- The referrer-side stats update of the referral transaction. -/
def applyReferrerStats (now : Time) (commissionAmount : Amount) (u : User) : User :=
  { u with referralStats := some (
      let s := u.referralStats.getD {}
      { s with totalCommissions := s.totalCommissions + commissionAmount
               pendingCommissions := s.pendingCommissions + commissionAmount
               totalReferrals := s.totalReferrals + 1
               lastReferralDate := some now }) }

/-- processDepositReferralAction.  The early return guards on JS truthiness
of referralCode, so the empty string behaves like undefined.  The transaction
creates the commission token, updates the referrer stats and stamps the
referred user; transaction.update on a missing referred-user document throws,
failing the whole call with nothing written. -/
def processDepositReferralAction (fail : Bool) (db : DB) (now : Time)
    (userId : DocId) (depositAmount : Amount) (referralCode : Option String) :
    DB × ActionResult :=
  if fail then (db, .failure "Referral işlemi başarısız")
  else
    match referralCode with
    | none => (db, .okUnit)
    | some code =>
      if code = "" then (db, .okUnit)
      else
        match queryReferrer db code with
        | none => (db, .failure "Geçersiz referral kodu")
        | some (referrerId, _referrerData) =>
          let commissionAmount := depositAmount * commissionRate
          if hasDoc db.users userId then
            let tokenData : UnifiedToken :=
              { userId := referrerId, type := .referral_commission,
                amount := commissionAmount, status := .pending,
                createdAt := now,
                expiresAt := some (now + 30 * 24 * 60 * 60 * 1000) }
            ({ db with
                unifiedTokens := db.unifiedTokens ++ [(freshId db.nextId, tokenData)]
                nextId := db.nextId + 1
                users :=
                  updateFirst
                    (updateFirst db.users referrerId
                      (applyReferrerStats now commissionAmount))
                    userId (fun u =>
                      { u with referredBy := some referrerId,
                               referralProcessedAt := some now }) },
             .okCommission commissionAmount)
          else (db, .failure "Referral işlemi başarısız")

/-- getUserReferralStatsAction: returns the stats object (or a zero default)
on success, and null both for a missing user and from the catch branch. -/
def getUserReferralStatsAction (fail : Bool) (db : DB) (userId : DocId) :
    DB × ActionResult :=
  if fail then (db, .statsOrNull none)
  else
    match findDoc db.users userId with
    | none => (db, .statsOrNull none)
    | some u => (db, .statsOrNull (some (u.referralStats.getD
        { totalReferrals := 0, totalCommissions := 0, pendingCommissions := 0,
          approvedCommissions := 0, lastReferralDate := none })))

/-- getUserReferralCommissionTokensAction. -/
def getUserReferralCommissionTokensAction (fail : Bool) (db : DB)
    (userId : DocId) : DB × ActionResult :=
  if fail then (db, .failure "Komisyon tokenları alınamadı")
  else
    (db, .okTokens (queryUserTokens db userId
      (fun t => t.type == .referral_commission) 50))

/-- The referrer-side stats update of the commission-approval transaction. -/
def applyCommissionApproval (amount : Amount) (u : User) : User :=
  { u with balance := u.balance + amount,
           referralStats := some (
             let s := u.referralStats.getD {}
             { s with approvedCommissions := s.approvedCommissions + amount
                      pendingCommissions := s.pendingCommissions - amount }) }

/-- approveReferralCommissionAction: guard on pending, then one transaction
approving the token and crediting the owner; transaction.update on a missing
user document throws into the catch branch. -/
def approveReferralCommissionAction (fail : Bool) (db : DB) (now : Time)
    (tokenId : DocId) (adminUserId : DocId) : DB × ActionResult :=
  if fail then (db, .failure "Komisyon onaylanamadı")
  else
    match findDoc db.unifiedTokens tokenId with
    | none => (db, .failure "Token bulunamadı")
    | some tokenData =>
      if tokenData.status ≠ .pending then (db, .failure "Token zaten işlenmiş")
      else if hasDoc db.users tokenData.userId then
        ({ db with
            unifiedTokens := updateFirst db.unifiedTokens tokenId (fun t =>
              { t with status := .approved, approvedAt := some now,
                       approvedBy := some adminUserId })
            users := updateFirst db.users tokenData.userId
              (applyCommissionApproval tokenData.amount) },
         .okUnit)
      else (db, .failure "Komisyon onaylanamadı")

/-- getUserReferralChainAction.  An orderBy on referralProcessedAt excludes
documents without that field. -/
def getUserReferralChainAction (fail : Bool) (db : DB) (userId : DocId) :
    DB × ActionResult :=
  if fail then (db, .failure "Referral zinciri alınamadı")
  else
    let referred := (sortDescBy (fun p => p.2.referralProcessedAt.getD 0)
        (db.users.filter (fun p =>
          p.2.referredBy == some userId && p.2.referralProcessedAt.isSome))).take 100
    (db, .okReferredUsers (referred.map (fun p =>
      { id := p.1, email := p.2.email, displayName := p.2.displayName,
        referralProcessedAt := p.2.referralProcessedAt,
        totalDeposits := p.2.totalDeposits })))

/-- getPendingReferralCommissionsAction.  Inside the for-loop the imported
doc() helper is shadowed by the loop variable and called as a function, which
throws a TypeError on the first iteration; so only an empty query reaches the
success return, and any nonempty result lands in the catch branch. -/
def getPendingReferralCommissionsAction (fail : Bool) (db : DB) :
    DB × ActionResult :=
  if fail then (db, .failure "Bekleyen komisyonlar alınamadı")
  else
    let pend := (sortDescBy (fun p => p.2.createdAt)
        (db.unifiedTokens.filter (fun p =>
          p.2.type == .referral_commission && p.2.status == .pending))).take 100
    if pend.isEmpty then (db, .okCommissions [])
    else (db, .failure "Bekleyen komisyonlar alınamadı")

/-- analyzeReferralPerformanceAction. -/
def analyzeReferralPerformanceAction (fail : Bool) (db : DB) (now : Time)
    (userId : DocId) : DB × ActionResult :=
  if fail then (db, .failure "Analiz yapılamadı")
  else
    let thirtyDaysAgo := now - 30 * 24 * 60 * 60 * 1000
    let recent := (db.users.filter (fun p =>
      p.2.referredBy == some userId &&
        (match p.2.referralProcessedAt with
         | some t => decide (thirtyDaysAgo ≤ t)
         | none => false))).length
    let commissions := db.unifiedTokens.filter (fun p =>
      p.2.userId == userId && p.2.type == .referral_commission)
    let n := commissions.length
    let totalAmount := (commissions.map (·.2.amount)).sum
    let approvedCount := (commissions.filter (·.2.status == .approved)).length
    (db, .okAnalysis {
      recentReferrals := recent
      totalCommissionTokens := n
      totalCommissionAmount := totalAmount
      approvedCommissions := approvedCount
      approvalRate := if 0 < n then ((approvedCount : ℚ) / (n : ℚ)) * 100 else 0
      averageCommissionAmount := if 0 < n then totalAmount / (n : ℚ) else 0 })

/-- One invocation of an exported server action, with its arguments.  This
enumerates every exported operation of the two modules. -/
inductive ServerAction where
  | createUnifiedToken (userId : DocId) (ty : TokenType) (amount : Amount)
      (expiresInDays : Option ℕ)
  | updateUnifiedToken (tokenId : DocId) (updates : TokenUpdate)
  | getUnifiedToken (tokenId : DocId)
  | getUserUnifiedTokens (userId : DocId) (tokenType : Option TokenType)
      (status : Option TokenStatus) (limitCount : ℕ)
  | approveToken (tokenId : DocId) (adminUserId : DocId) (notes : Option String)
  | rejectToken (tokenId : DocId) (adminUserId : DocId) (reason : String)
  | cleanupExpiredTokens
  | getTokenStatistics
  | migrateTransactionToToken (transactionId : DocId) (adminUserId : DocId)
  | processDepositReferral (userId : DocId) (depositAmount : Amount)
      (referralCode : Option String)
  | getUserReferralStats (userId : DocId)
  | getUserReferralCommissionTokens (userId : DocId)
  | approveReferralCommission (tokenId : DocId) (adminUserId : DocId)
  | getUserReferralChain (userId : DocId)
  | getPendingReferralCommissions
  | analyzeReferralPerformance (userId : DocId)

/-- Dispatch an action invocation to its definition. -/
def runAction (a : ServerAction) (fail : Bool) (db : DB) (now : Time) :
    DB × ActionResult :=
  match a with
  | .createUnifiedToken userId ty amount expiresInDays =>
    createUnifiedTokenAction fail db now userId ty amount expiresInDays
  | .updateUnifiedToken tokenId updates =>
    updateUnifiedTokenAction fail db now tokenId updates
  | .getUnifiedToken tokenId => getUnifiedTokenAction fail db tokenId
  | .getUserUnifiedTokens userId tokenType status limitCount =>
    getUserUnifiedTokensAction fail db userId tokenType status limitCount
  | .approveToken tokenId adminUserId notes =>
    approveTokenAction fail db now tokenId adminUserId notes
  | .rejectToken tokenId adminUserId reason =>
    rejectTokenAction fail db now tokenId adminUserId reason
  | .cleanupExpiredTokens => cleanupExpiredTokensAction fail db now
  | .getTokenStatistics => getTokenStatisticsAction fail db
  | .migrateTransactionToToken transactionId adminUserId =>
    migrateTransactionToTokenAction fail db now transactionId adminUserId
  | .processDepositReferral userId depositAmount referralCode =>
    processDepositReferralAction fail db now userId depositAmount referralCode
  | .getUserReferralStats userId => getUserReferralStatsAction fail db userId
  | .getUserReferralCommissionTokens userId =>
    getUserReferralCommissionTokensAction fail db userId
  | .approveReferralCommission tokenId adminUserId =>
    approveReferralCommissionAction fail db now tokenId adminUserId
  | .getUserReferralChain userId => getUserReferralChainAction fail db userId
  | .getPendingReferralCommissions => getPendingReferralCommissionsAction fail db
  | .analyzeReferralPerformance userId =>
    analyzeReferralPerformanceAction fail db now userId

/-! Basic lemmas about the collection primitives. -/

theorem findDoc_append_left {col l : List (DocId × α)} {i : DocId} {d : α}
    (h : findDoc col i = some d) : findDoc (col ++ l) i = some d := by
  induction col with
  | nil => simp [findDoc] at h
  | cons hd tl ih =>
    obtain ⟨j, x⟩ := hd
    by_cases hji : j = i
    · simp [findDoc, hji] at h ⊢
      exact h
    · simp [findDoc, hji] at h ⊢
      exact ih h

theorem findDoc_updateFirst (col : List (DocId × α)) (i k : DocId) (f : α → α) :
    findDoc (updateFirst col i f) k =
      if i = k then (findDoc col k).map f else findDoc col k := by
  induction col with
  | nil => simp [findDoc, updateFirst]
  | cons hd tl ih =>
    obtain ⟨j, x⟩ := hd
    by_cases hji : j = i
    · subst hji
      by_cases hjk : j = k
      · subst hjk
        simp [findDoc, updateFirst]
      · simp [findDoc, updateFirst, hjk]
    · by_cases hjk : j = k
      · have hik : ¬ i = k := fun h => hji (hjk.trans h.symm)
        have hki : ¬ k = i := fun h => hik h.symm
        simp [findDoc, updateFirst, hji, hjk, hik, hki]
      · simp [findDoc, updateFirst, hji, hjk, ih]

theorem findDoc_updateFirst_self {col : List (DocId × α)} {i : DocId} {d : α}
    (f : α → α) (h : findDoc col i = some d) :
    findDoc (updateFirst col i f) i = some (f d) := by
  rw [findDoc_updateFirst, if_pos rfl, h]
  rfl

theorem findDoc_updateFirst_ne {col : List (DocId × α)} {i k : DocId}
    (f : α → α) (h : i ≠ k) :
    findDoc (updateFirst col i f) k = findDoc col k := by
  rw [findDoc_updateFirst, if_neg h]

theorem markExpiredDocs_zero (now : Time) (l : List (DocId × UnifiedToken)) :
    markExpiredDocs now 0 l = (l, 0) := by
  cases l <;> rfl

theorem isCleanupMatch_pending {now : Time} {t : UnifiedToken}
    (h : isCleanupMatch now t = true) : t.status = .pending := by
  unfold isCleanupMatch at h
  rw [Bool.and_eq_true] at h
  simpa using h.2

theorem markExpiredDocs_map_fst (now : Time) (b : ℕ)
    (l : List (DocId × UnifiedToken)) :
    (markExpiredDocs now b l).1.map Prod.fst = l.map Prod.fst := by
  induction l generalizing b with
  | nil => cases b <;> simp [markExpiredDocs]
  | cons hd tl ih =>
    obtain ⟨i, t⟩ := hd
    cases b with
    | zero => rw [markExpiredDocs_zero]
    | succ b =>
      by_cases h : isCleanupMatch now t = true
      · simp [markExpiredDocs, h, ih]
      · simp [markExpiredDocs, h, ih]

theorem markExpiredDocs_count (now : Time) (b : ℕ)
    (l : List (DocId × UnifiedToken)) :
    (markExpiredDocs now b l).2 =
      min b (l.countP (fun p => isCleanupMatch now p.2)) := by
  induction l generalizing b with
  | nil => cases b <;> simp [markExpiredDocs]
  | cons hd tl ih =>
    obtain ⟨i, t⟩ := hd
    cases b with
    | zero => rw [markExpiredDocs_zero]; simp
    | succ b =>
      by_cases h : isCleanupMatch now t = true
      · simp [markExpiredDocs, h, List.countP_cons, ih]
        omega
      · simp [markExpiredDocs, h, List.countP_cons, ih]

theorem markExpiredDocs_forall2 (now : Time) (b : ℕ)
    (l : List (DocId × UnifiedToken)) :
    List.Forall₂ (fun p q => q = p ∨
        (isCleanupMatch now p.2 = true ∧ q = (p.1, markExpired now p.2)))
      l (markExpiredDocs now b l).1 := by
  induction l generalizing b with
  | nil => cases b <;> simp [markExpiredDocs]
  | cons hd tl ih =>
    obtain ⟨i, t⟩ := hd
    cases b with
    | zero =>
      rw [markExpiredDocs_zero]
      exact List.forall₂_same.2 (fun x _ => Or.inl rfl)
    | succ b =>
      by_cases h : isCleanupMatch now t = true
      · simp only [markExpiredDocs, if_pos h]
        exact List.Forall₂.cons (Or.inr ⟨h, rfl⟩) (ih b)
      · simp only [markExpiredDocs, if_neg h]
        exact List.Forall₂.cons (Or.inl rfl) (ih (b + 1))

theorem markExpiredDocs_of_le (now : Time) (b : ℕ)
    (l : List (DocId × UnifiedToken))
    (h : l.countP (fun p => isCleanupMatch now p.2) ≤ b) :
    (markExpiredDocs now b l).1 = l.map (fun p =>
      if isCleanupMatch now p.2 then (p.1, markExpired now p.2) else p) := by
  induction l generalizing b with
  | nil => cases b <;> simp [markExpiredDocs]
  | cons hd tl ih =>
    obtain ⟨i, t⟩ := hd
    by_cases hm : isCleanupMatch now t = true
    · cases b with
      | zero => simp [List.countP_cons, hm] at h
      | succ b =>
        have hle : tl.countP (fun p => isCleanupMatch now p.2) ≤ b := by
          simp [List.countP_cons, hm] at h
          omega
        simp [markExpiredDocs, hm, ih b hle]
    · have htl : tl.countP (fun p => isCleanupMatch now p.2) ≤ b := by
        simpa [List.countP_cons, hm] using h
      cases b with
      | zero =>
        rw [markExpiredDocs_zero]
        have h0 := ih 0 htl
        rw [markExpiredDocs_zero] at h0
        simp [List.map_cons, hm, ← h0]
      | succ b =>
        simp [markExpiredDocs, hm, ih (b + 1) htl]

theorem findDoc_markExpiredDocs_not_pending {now : Time}
    {l : List (DocId × UnifiedToken)} {i : DocId} {t : UnifiedToken} (b : ℕ)
    (hfind : findDoc l i = some t) (hst : t.status ≠ .pending) :
    findDoc (markExpiredDocs now b l).1 i = some t := by
  induction l generalizing b with
  | nil => simp [findDoc] at hfind
  | cons hd tl ih =>
    obtain ⟨j, d⟩ := hd
    by_cases hji : j = i
    · subst hji
      have hdt : d = t := by simpa [findDoc] using hfind
      subst hdt
      have hm : ¬ (isCleanupMatch now d = true) := fun hm => hst (isCleanupMatch_pending hm)
      cases b with
      | zero => rw [markExpiredDocs_zero]; exact hfind
      | succ b => simp [markExpiredDocs, hm, findDoc]
    · have hrest : findDoc tl i = some t := by simpa [findDoc, hji] using hfind
      cases b with
      | zero => rw [markExpiredDocs_zero]; exact hfind
      | succ b =>
        by_cases hm : isCleanupMatch now d = true
        · simp only [markExpiredDocs, if_pos hm, findDoc, hji, if_false]
          exact ih b hrest
        · simp only [markExpiredDocs, if_neg hm, findDoc, hji, if_false]
          exact ih (b + 1) hrest

/-! State lemmas: which collections each action leaves untouched. -/

theorem getUnifiedTokenAction_db (fail : Bool) (db : DB) (i : DocId) :
    (getUnifiedTokenAction fail db i).1 = db := by
  unfold getUnifiedTokenAction
  split
  · rfl
  · split <;> rfl

theorem getUserUnifiedTokensAction_db (fail : Bool) (db : DB) (uid : DocId)
    (ty : Option TokenType) (st : Option TokenStatus) (n : ℕ) :
    (getUserUnifiedTokensAction fail db uid ty st n).1 = db := by
  unfold getUserUnifiedTokensAction
  split <;> rfl

theorem getTokenStatisticsAction_db (fail : Bool) (db : DB) :
    (getTokenStatisticsAction fail db).1 = db := by
  unfold getTokenStatisticsAction
  split <;> rfl

theorem getUserReferralStatsAction_db (fail : Bool) (db : DB) (uid : DocId) :
    (getUserReferralStatsAction fail db uid).1 = db := by
  unfold getUserReferralStatsAction
  split
  · rfl
  · split <;> rfl

theorem getUserReferralCommissionTokensAction_db (fail : Bool) (db : DB)
    (uid : DocId) :
    (getUserReferralCommissionTokensAction fail db uid).1 = db := by
  unfold getUserReferralCommissionTokensAction
  split <;> rfl

theorem getUserReferralChainAction_db (fail : Bool) (db : DB) (uid : DocId) :
    (getUserReferralChainAction fail db uid).1 = db := by
  unfold getUserReferralChainAction
  split <;> rfl

theorem getPendingReferralCommissionsAction_db (fail : Bool) (db : DB) :
    (getPendingReferralCommissionsAction fail db).1 = db := by
  unfold getPendingReferralCommissionsAction
  split
  · rfl
  · dsimp only
    split <;> rfl

theorem analyzeReferralPerformanceAction_db (fail : Bool) (db : DB)
    (now : Time) (uid : DocId) :
    (analyzeReferralPerformanceAction fail db now uid).1 = db := by
  unfold analyzeReferralPerformanceAction
  split <;> rfl

theorem createUnifiedTokenAction_users (fail : Bool) (db : DB) (now : Time)
    (uid : DocId) (ty : TokenType) (amt : Amount) (e : Option ℕ) :
    ((createUnifiedTokenAction fail db now uid ty amt e).1).users = db.users := by
  unfold createUnifiedTokenAction
  split <;> rfl

theorem createUnifiedTokenAction_transactions (fail : Bool) (db : DB)
    (now : Time) (uid : DocId) (ty : TokenType) (amt : Amount) (e : Option ℕ) :
    ((createUnifiedTokenAction fail db now uid ty amt e).1).transactions
      = db.transactions := by
  unfold createUnifiedTokenAction
  split <;> rfl

theorem updateUnifiedTokenAction_users (fail : Bool) (db : DB) (now : Time)
    (tid : DocId) (upd : TokenUpdate) :
    ((updateUnifiedTokenAction fail db now tid upd).1).users = db.users := by
  unfold updateUnifiedTokenAction
  split <;> rfl

theorem updateUnifiedTokenAction_transactions (fail : Bool) (db : DB)
    (now : Time) (tid : DocId) (upd : TokenUpdate) :
    ((updateUnifiedTokenAction fail db now tid upd).1).transactions
      = db.transactions := by
  unfold updateUnifiedTokenAction
  split <;> rfl

theorem rejectTokenAction_users (fail : Bool) (db : DB) (now : Time)
    (tid adm : DocId) (reason : String) :
    ((rejectTokenAction fail db now tid adm reason).1).users = db.users := by
  unfold rejectTokenAction
  split <;> rfl

theorem rejectTokenAction_transactions (fail : Bool) (db : DB) (now : Time)
    (tid adm : DocId) (reason : String) :
    ((rejectTokenAction fail db now tid adm reason).1).transactions
      = db.transactions := by
  unfold rejectTokenAction
  split <;> rfl

theorem cleanupExpiredTokensAction_users (fail : Bool) (db : DB) (now : Time) :
    ((cleanupExpiredTokensAction fail db now).1).users = db.users := by
  unfold cleanupExpiredTokensAction
  split
  · rfl
  · dsimp only
    split <;> rfl

theorem cleanupExpiredTokensAction_transactions (fail : Bool) (db : DB)
    (now : Time) :
    ((cleanupExpiredTokensAction fail db now).1).transactions
      = db.transactions := by
  unfold cleanupExpiredTokensAction
  split
  · rfl
  · dsimp only
    split <;> rfl

theorem approveTokenAction_transactions (fail : Bool) (db : DB) (now : Time)
    (tid adm : DocId) (notes : Option String) :
    ((approveTokenAction fail db now tid adm notes).1).transactions
      = db.transactions := by
  unfold approveTokenAction
  split
  · rfl
  · split
    · rfl
    · split
      · rfl
      · split <;> rfl

theorem approveTokenAction_users (fail : Bool) (db : DB) (now : Time)
    (tid adm : DocId) (notes : Option String) :
    ((approveTokenAction fail db now tid adm notes).1).users = db.users := by
  unfold approveTokenAction
  split
  · rfl
  · split
    · rfl
    · split
      · rfl
      · split <;> rfl

theorem approveReferralCommissionAction_transactions (fail : Bool) (db : DB)
    (now : Time) (tid adm : DocId) :
    ((approveReferralCommissionAction fail db now tid adm).1).transactions
      = db.transactions := by
  unfold approveReferralCommissionAction
  split
  · rfl
  · split
    · rfl
    · split
      · rfl
      · split <;> rfl

theorem migrateTransactionToTokenAction_users (fail : Bool) (db : DB)
    (now : Time) (tid adm : DocId) :
    ((migrateTransactionToTokenAction fail db now tid adm).1).users
      = db.users := by
  unfold migrateTransactionToTokenAction
  split
  · rfl
  · split <;> rfl

theorem processDepositReferralAction_transactions (fail : Bool) (db : DB)
    (now : Time) (uid : DocId) (amt : Amount) (code : Option String) :
    ((processDepositReferralAction fail db now uid amt code).1).transactions
      = db.transactions := by
  unfold processDepositReferralAction
  split
  · rfl
  · split
    · rfl
    · split
      · rfl
      · split
        · rfl
        · split <;> rfl

/-- The balance of the user document with the given id, if present. -/
def balanceOf (db : DB) (i : DocId) : Option Amount :=
  (findDoc db.users i).map User.balance

/-- The status of the token document with the given id, if present. -/
def statusOf (db : DB) (i : DocId) : Option TokenStatus :=
  (findDoc db.unifiedTokens i).map UnifiedToken.status

/-- The referral-commission aggregate triple (total, pending, approved) of a
user; a missing referralStats map reads as zeros, as the getD defaults do. -/
def commissionsOf (u : User) : Amount × Amount × Amount :=
  ((u.referralStats.getD {}).totalCommissions,
   (u.referralStats.getD {}).pendingCommissions,
   (u.referralStats.getD {}).approvedCommissions)

/-- The referrer-statistics invariant: totalCommissions is the sum of the
pending and approved commissions. -/
def statsInvariant (u : User) : Prop :=
  (u.referralStats.getD {}).totalCommissions =
    (u.referralStats.getD {}).pendingCommissions +
      (u.referralStats.getD {}).approvedCommissions

theorem map_findDoc_updateFirst {col : List (DocId × α)} {j k : DocId}
    (f : α → α) (g : α → β) (hfix : ∀ u, g (f u) = g u) :
    ((findDoc (updateFirst col j f) k).map g) = (findDoc col k).map g := by
  rw [findDoc_updateFirst]
  split
  · cases findDoc col k <;> simp [hfix]
  · rfl

theorem mem_insertDescBy {key : α → ℕ} {x y : α} {l : List α} :
    y ∈ insertDescBy key x l ↔ y = x ∨ y ∈ l := by
  induction l with
  | nil => simp [insertDescBy]
  | cons hd tl ih =>
    by_cases h : key hd ≤ key x
    · simp [insertDescBy, h, List.mem_cons]
    · simp [insertDescBy, h, List.mem_cons, ih]
      tauto

theorem mem_sortDescBy {key : α → ℕ} {y : α} {l : List α} :
    y ∈ sortDescBy key l ↔ y ∈ l := by
  induction l with
  | nil => simp [sortDescBy]
  | cons hd tl ih => simp [sortDescBy, mem_insertDescBy, ih]

/-- C4 counterexample: the claim that every exported operation returns the
uniform failure object on an internal failure is false for
getUserReferralStatsAction, whose catch branch returns null. -/
theorem getUserReferralStats_not_uniform_failure :
    (runAction (.getUserReferralStats "u1") true {} 0).2 = .statsOrNull none
    ∧ ∀ e, (runAction (.getUserReferralStats "u1") true {} 0).2 ≠ .failure e := by
  refine ⟨rfl, fun e h => ?_⟩
  simp [runAction, getUserReferralStatsAction] at h

/-- C4 (amended): when the database layer throws inside the try block, every
exported operation returns the uniform success-false shape with a nonempty
localized error string and throws nothing to its caller, except
getUserReferralStatsAction, whose catch branch returns null instead. -/
theorem catch_branch_shapes (a : ServerAction) (db : DB) (now : Time) :
    match a with
    | .getUserReferralStats _ => (runAction a true db now).2 = .statsOrNull none
    | _ => ∃ e, (runAction a true db now).2 = .failure e ∧ e ≠ "" := by
  cases a
  case getUserReferralStats uid => rfl
  all_goals exact ⟨_, rfl, by decide⟩

/-- C8: when both tokenType and status are given, getUserUnifiedTokensAction
behaves exactly as if tokenType had been omitted: the status query replaces
the type query, and the result is the userId-and-status filter of the
collection, newest first, truncated to limitCount. -/
theorem getUserTokens_status_overrides_type (db : DB) (uid : DocId)
    (ty : TokenType) (st : TokenStatus) (n : ℕ) :
    getUserUnifiedTokensAction false db uid (some ty) (some st) n
      = getUserUnifiedTokensAction false db uid none (some st) n
    ∧ getUserUnifiedTokensAction false db uid (some ty) (some st) n
      = (db, .okTokens ((sortDescBy (fun p => p.2.createdAt)
          (db.unifiedTokens.filter (fun p =>
            p.2.userId == uid && p.2.status == st))).take n))
    ∧ ∀ p ∈ (sortDescBy (fun p => p.2.createdAt)
          (db.unifiedTokens.filter (fun p =>
            p.2.userId == uid && p.2.status == st))).take n,
        p.2.userId = uid ∧ p.2.status = st := by
  refine ⟨rfl, rfl, fun p hp => ?_⟩
  have hmem : p ∈ db.unifiedTokens.filter (fun p =>
      p.2.userId == uid && p.2.status == st) :=
    mem_sortDescBy.1 (List.take_subset n _ hp)
  have hpred := (List.mem_filter.1 hmem).2
  rw [Bool.and_eq_true] at hpred
  exact ⟨by simpa using hpred.1, by simpa using hpred.2⟩

/-- C10: without a referralCode, processDepositReferralAction succeeds
immediately with no state change; with a referralCode matching no user, it
fails with the invalid-code message and no state change (every write sits
behind the referrer lookup, inside one transaction). -/
theorem processDepositReferral_guards (db : DB) (now : Time) (uid : DocId)
    (amt : Amount) (code : String) (hcode : code ≠ "")
    (hq : queryReferrer db code = none) :
    processDepositReferralAction false db now uid amt none = (db, .okUnit)
    ∧ processDepositReferralAction false db now uid amt (some code)
        = (db, .failure "Geçersiz referral kodu") := by
  refine ⟨rfl, ?_⟩
  unfold processDepositReferralAction
  simp [hcode, hq]

/-- Witness for C10 at a concrete empty database and code. -/
theorem processDepositReferral_guards_witness :
    processDepositReferralAction false {} 0 "u1" 10 none = ({}, .okUnit)
    ∧ processDepositReferralAction false {} 0 "u1" 10 (some "X")
        = ({}, .failure "Geçersiz referral kodu") :=
  processDepositReferral_guards {} 0 "u1" 10 "X" (by decide) rfl

/-- C3: with a referral code matching exactly one user, and the depositing
user present (its document is updated inside the same transaction),
processDepositReferralAction appends exactly one pending referral_commission
token owned by the referrer whose amount is the deposit amount multiplied by
the fixed 5-percent commission rate, and returns success carrying that same
amount. -/
theorem processDepositReferral_commission (db : DB) (now : Time)
    (uid : DocId) (amt : Amount) (code : String) (rid : DocId) (ru : User)
    (hcode : code ≠ "")
    (hq : db.users.filter (fun p => p.2.referralCode == some code) = [(rid, ru)])
    (huser : hasDoc db.users uid = true) :
    (processDepositReferralAction false db now uid amt (some code)).2
        = .okCommission (amt * (5 / 100))
    ∧ ((processDepositReferralAction false db now uid amt (some code)).1).unifiedTokens
        = db.unifiedTokens ++ [(freshId db.nextId,
            { userId := rid, type := .referral_commission,
              amount := amt * (5 / 100), status := .pending,
              createdAt := now,
              expiresAt := some (now + 30 * 24 * 60 * 60 * 1000) })] := by
  have hqr : queryReferrer db code = some (rid, ru) := by
    unfold queryReferrer
    rw [hq]
    rfl
  unfold processDepositReferralAction
  simp [hcode, hqr, huser, commissionRate]

/-- A two-user database: a referrer holding the code and a depositor. -/
def dbTwoUsers : DB :=
  { users := [("r1", { referralCode := some "CODE" }), ("u2", {})] }

/-- Witness for C3 at a concrete database. -/
theorem processDepositReferral_commission_witness :
    (processDepositReferralAction false dbTwoUsers 0 "u2" 100 (some "CODE")).2
        = .okCommission (100 * (5 / 100))
    ∧ ((processDepositReferralAction false dbTwoUsers 0 "u2" 100 (some "CODE")).1).unifiedTokens
        = dbTwoUsers.unifiedTokens ++ [(freshId dbTwoUsers.nextId,
            { userId := "r1", type := .referral_commission,
              amount := 100 * (5 / 100), status := .pending,
              createdAt := 0,
              expiresAt := some (0 + 30 * 24 * 60 * 60 * 1000) })] :=
  processDepositReferral_commission dbTwoUsers 0 "u2" 100 "CODE" "r1"
    { referralCode := some "CODE" } (by decide) (by decide) (by decide)

/-- C6: cleanupExpiredTokensAction deletes no document (ids of every
collection are preserved), marks only tokens that are pending with expiresAt
at or before now (setting status expired and stamping expiredAt), processes
at most 100 tokens per call, reports deletedCount equal to the number of
tokens so marked (0 when none match), and marks exactly the matching tokens
whenever at most 100 match. -/
theorem cleanup_marks_not_deletes (db : DB) (now : Time) :
    ((cleanupExpiredTokensAction false db now).1).unifiedTokens.map Prod.fst
        = db.unifiedTokens.map Prod.fst
    ∧ ((cleanupExpiredTokensAction false db now).1).users = db.users
    ∧ ((cleanupExpiredTokensAction false db now).1).transactions
        = db.transactions
    ∧ (cleanupExpiredTokensAction false db now).2
        = .okDeleted (min 100
            (db.unifiedTokens.countP (fun p => isCleanupMatch now p.2)))
    ∧ List.Forall₂ (fun p q => q = p ∨ (isCleanupMatch now p.2 = true
          ∧ q = (p.1, markExpired now p.2)))
        db.unifiedTokens
        ((cleanupExpiredTokensAction false db now).1).unifiedTokens
    ∧ (db.unifiedTokens.countP (fun p => isCleanupMatch now p.2) ≤ 100 →
        ((cleanupExpiredTokensAction false db now).1).unifiedTokens
          = db.unifiedTokens.map (fun p =>
              if isCleanupMatch now p.2 then (p.1, markExpired now p.2) else p)) := by
  have hcount := markExpiredDocs_count now 100 db.unifiedTokens
  by_cases h0 : (markExpiredDocs now 100 db.unifiedTokens).2 = 0
  · have hrun : cleanupExpiredTokensAction false db now = (db, .okDeleted 0) := by
      unfold cleanupExpiredTokensAction
      simp [h0]
    have hc0 : db.unifiedTokens.countP (fun p => isCleanupMatch now p.2) = 0 := by
      rw [hcount] at h0
      omega
    rw [hrun]
    refine ⟨rfl, rfl, rfl, by rw [hc0]; rfl, ?_, fun _ => ?_⟩
    · exact List.forall₂_same.2 (fun x _ => Or.inl rfl)
    · have hid := markExpiredDocs_of_le now 0 db.unifiedTokens (by omega)
      rw [markExpiredDocs_zero] at hid
      exact hid
  · have hrun : cleanupExpiredTokensAction false db now =
        ({ db with unifiedTokens := (markExpiredDocs now 100 db.unifiedTokens).1 },
         .okDeleted (markExpiredDocs now 100 db.unifiedTokens).2) := by
      unfold cleanupExpiredTokensAction
      simp [h0]
    rw [hrun]
    exact ⟨markExpiredDocs_map_fst now 100 db.unifiedTokens, rfl, rfl,
      by rw [hcount], markExpiredDocs_forall2 now 100 db.unifiedTokens,
      fun hle => markExpiredDocs_of_le now 100 db.unifiedTokens hle⟩

theorem approveTokenAction_false_def (db : DB) (now : Time) (tid adm : DocId)
    (notes : Option String) :
    approveTokenAction false db now tid adm notes =
      match findDoc db.unifiedTokens tid with
      | none => (db, .failure "Token bulunamadı")
      | some tokenData =>
        if tokenData.status ≠ .pending then (db, .failure "Token zaten işlenmiş")
        else if tokenData.type = .raffle_entry then
          ({ db with
              unifiedTokens :=
                updateFirst db.unifiedTokens tid
                  (applyApprovedStamp now adm notes) },
           .okUnit)
        else (db, .failure "Token onaylanamadı") := rfl

theorem approveReferralCommissionAction_false_def (db : DB) (now : Time)
    (tid adm : DocId) :
    approveReferralCommissionAction false db now tid adm =
      match findDoc db.unifiedTokens tid with
      | none => (db, .failure "Token bulunamadı")
      | some tokenData =>
        if tokenData.status ≠ .pending then (db, .failure "Token zaten işlenmiş")
        else if hasDoc db.users tokenData.userId then
          ({ db with
              unifiedTokens := updateFirst db.unifiedTokens tid (fun t =>
                { t with status := .approved, approvedAt := some now,
                         approvedBy := some adm })
              users := updateFirst db.users tokenData.userId
                (applyCommissionApproval tokenData.amount) },
           .okUnit)
        else (db, .failure "Komisyon onaylanamadı") := rfl

theorem approveTokenAction_found (db : DB) (now : Time) (tid adm : DocId)
    (notes : Option String) {t : UnifiedToken}
    (hfind : findDoc db.unifiedTokens tid = some t) :
    approveTokenAction false db now tid adm notes =
      if t.status ≠ .pending then (db, .failure "Token zaten işlenmiş")
      else if t.type = .raffle_entry then
        ({ db with
            unifiedTokens :=
              updateFirst db.unifiedTokens tid
                (applyApprovedStamp now adm notes) },
         .okUnit)
      else (db, .failure "Token onaylanamadı") := by
  rw [approveTokenAction_false_def, hfind]

theorem approveReferralCommissionAction_found (db : DB) (now : Time)
    (tid adm : DocId) {t : UnifiedToken}
    (hfind : findDoc db.unifiedTokens tid = some t) :
    approveReferralCommissionAction false db now tid adm =
      if t.status ≠ .pending then (db, .failure "Token zaten işlenmiş")
      else if hasDoc db.users t.userId then
        ({ db with
            unifiedTokens := updateFirst db.unifiedTokens tid (fun tok =>
              { tok with status := .approved, approvedAt := some now,
                         approvedBy := some adm })
            users := updateFirst db.users t.userId
              (applyCommissionApproval t.amount) },
         .okUnit)
      else (db, .failure "Komisyon onaylanamadı") := by
  rw [approveReferralCommissionAction_false_def, hfind]

/-- A settled (non-pending) token is refused again by both approval actions. -/
theorem approve_settled_fails (db2 : DB) (now2 : Time) (tid adm2 : DocId)
    (notes2 : Option String) {u : UnifiedToken}
    (hfind2 : findDoc db2.unifiedTokens tid = some u)
    (hst : u.status ≠ .pending) :
    approveTokenAction false db2 now2 tid adm2 notes2
        = (db2, .failure "Token zaten işlenmiş")
    ∧ approveReferralCommissionAction false db2 now2 tid adm2
        = (db2, .failure "Token zaten işlenmiş") := by
  constructor
  · rw [approveTokenAction_found db2 now2 tid adm2 notes2 hfind2, if_pos hst]
  · rw [approveReferralCommissionAction_found db2 now2 tid adm2 hfind2, if_pos hst]

/-- C5: processing is idempotent.  A non-pending token makes both approval
actions return the already-processed failure with the database untouched;
and after a successful approval, a second approval of the same token (by
either action) fails the same way and changes nothing, so the owner balance
moves exactly once. -/
theorem token_processing_idempotent (db : DB) (now now2 : Time)
    (tid adm adm2 : DocId) (notes notes2 : Option String) (t : UnifiedToken)
    (hfind : findDoc db.unifiedTokens tid = some t) :
    (t.status ≠ .pending →
      approveTokenAction false db now tid adm notes
          = (db, .failure "Token zaten işlenmiş")
      ∧ approveReferralCommissionAction false db now tid adm
          = (db, .failure "Token zaten işlenmiş"))
    ∧ (∀ db1, approveTokenAction false db now tid adm notes = (db1, .okUnit) →
        approveTokenAction false db1 now2 tid adm2 notes2
            = (db1, .failure "Token zaten işlenmiş")
        ∧ approveReferralCommissionAction false db1 now2 tid adm2
            = (db1, .failure "Token zaten işlenmiş")) := by
  constructor
  · intro hst
    exact approve_settled_fails db now tid adm notes hfind hst
  · intro db1 hok
    rw [approveTokenAction_found db now tid adm notes hfind] at hok
    by_cases hst : t.status ≠ .pending
    · rw [if_pos hst] at hok
      exact absurd (congrArg Prod.snd hok) (by simp)
    · rw [if_neg hst] at hok
      by_cases hty : t.type = .raffle_entry
      · rw [if_pos hty] at hok
        injection hok with h1 h2
        subst h1
        exact approve_settled_fails _ now2 tid adm2 notes2
          (findDoc_updateFirst_self _ hfind) (by simp [applyApprovedStamp])
      · rw [if_neg hty] at hok
        exact absurd (congrArg Prod.snd hok) (by simp)

/-- A pending deposit token of amount 5 owned by user u1. -/
def tokPendingDeposit : UnifiedToken :=
  { userId := "u1", type := .deposit, amount := 5, status := .pending,
    createdAt := 0 }

/-- An already approved deposit token of amount 5 owned by user u1. -/
def tokApprovedDeposit : UnifiedToken :=
  { userId := "u1", type := .deposit, amount := 5, status := .approved,
    createdAt := 0 }

/-- A database holding the pending deposit token and its owner. -/
def dbPending : DB :=
  { unifiedTokens := [("t1", tokPendingDeposit)], users := [("u1", {})] }

/-- A database holding the already approved deposit token and its owner. -/
def dbSettled : DB :=
  { unifiedTokens := [("t1", tokApprovedDeposit)], users := [("u1", {})] }

/-- C7 (code bug): approving the concrete pending deposit token does not
apply the per-type balance rule the claim (and the switch of the source,
with its add-to-balance comments) intends.  Because increment is not
imported in unifiedTokenActions.ts, the transaction callback throws a
ReferenceError for every type except raffle_entry, so the call lands in the
catch branch and returns the failure value with no document written, while
the intended update (applyApproval, modelled from the switch) would have
added the token amount to the owner balance. -/
theorem approveToken_missing_increment :
    approveTokenAction false dbPending 1 "t1" "a1" none
      = (dbPending, .failure "Token onaylanamadı")
    ∧ (applyApproval tokPendingDeposit.type tokPendingDeposit.amount
        ({} : User)).balance
      = ({} : User).balance + tokPendingDeposit.amount :=
  ⟨rfl, rfl⟩

/-- Witness for C5 at the concrete settled token. -/
theorem token_processing_idempotent_witness :
    (tokApprovedDeposit.status ≠ .pending →
      approveTokenAction false dbSettled 1 "t1" "a1" none
          = (dbSettled, .failure "Token zaten işlenmiş")
      ∧ approveReferralCommissionAction false dbSettled 1 "t1" "a1"
          = (dbSettled, .failure "Token zaten işlenmiş"))
    ∧ (∀ db1, approveTokenAction false dbSettled 1 "t1" "a1" none
          = (db1, .okUnit) →
        approveTokenAction false db1 2 "t1" "a2" none
            = (db1, .failure "Token zaten işlenmiş")
        ∧ approveReferralCommissionAction false db1 2 "t1" "a2"
            = (db1, .failure "Token zaten işlenmiş")) :=
  token_processing_idempotent dbSettled 1 2 "t1" "a1" "a2" none none
    tokApprovedDeposit (by decide)

/-- C1 counterexample: rejectTokenAction carries no pending guard, and
updateUnifiedTokenAction accepts a status field, so each changes the status
of a token that is already settled (here approved), refuting the claim that
no operation touches the status of a non-pending token. -/
theorem settled_status_can_change :
    statusOf dbSettled "t1" = some .approved
    ∧ statusOf ((rejectTokenAction false dbSettled 2 "t1" "a2" "dup").1) "t1"
        = some .rejected
    ∧ statusOf ((updateUnifiedTokenAction false dbSettled 2 "t1"
          { status := some .pending }).1) "t1" = some .pending := by
  refine ⟨rfl, ?_, ?_⟩ <;> rfl

/-- C1 (amended): tokens created by createUnifiedTokenAction start pending,
and every operation other than rejectTokenAction and updateUnifiedTokenAction
leaves settled tokens untouched, so a status only ever moves away from
pending (to one terminal state); rejectTokenAction stamps rejected with no
status guard and updateUnifiedTokenAction writes any supplied status, so
those two operations are excluded. -/
theorem token_status_transitions (a : ServerAction) (db : DB) (now : Time)
    (hrej : ∀ tid adm r, a ≠ .rejectToken tid adm r)
    (hupd : ∀ tid upd, a ≠ .updateUnifiedToken tid upd) :
    (∀ i t, findDoc db.unifiedTokens i = some t → t.status ≠ .pending →
        findDoc ((runAction a false db now).1).unifiedTokens i = some t)
    ∧ (∀ i t t2, findDoc db.unifiedTokens i = some t →
        findDoc ((runAction a false db now).1).unifiedTokens i = some t2 →
        t2.status ≠ t.status → t.status = .pending ∧ t2.status ≠ .pending)
    ∧ (∀ uid ty amt e, ∃ tok,
        ((runAction (.createUnifiedToken uid ty amt e) false db now).1).unifiedTokens
          = db.unifiedTokens ++ [(freshId db.nextId, tok)]
        ∧ tok.status = .pending) := by
  have hmain : ∀ i t, findDoc db.unifiedTokens i = some t → t.status ≠ .pending →
      findDoc ((runAction a false db now).1).unifiedTokens i = some t := by
    intro i t hfind hst
    cases a with
    | createUnifiedToken uid ty amt e => exact findDoc_append_left hfind
    | updateUnifiedToken tid upd => exact absurd rfl (hupd tid upd)
    | rejectToken tid adm r => exact absurd rfl (hrej tid adm r)
    | getUnifiedToken tid =>
      simp only [runAction, getUnifiedTokenAction_db]
      exact hfind
    | getUserUnifiedTokens uid ty st n =>
      simp only [runAction, getUserUnifiedTokensAction_db]
      exact hfind
    | getTokenStatistics =>
      simp only [runAction, getTokenStatisticsAction_db]
      exact hfind
    | getUserReferralStats uid =>
      simp only [runAction, getUserReferralStatsAction_db]
      exact hfind
    | getUserReferralCommissionTokens uid =>
      simp only [runAction, getUserReferralCommissionTokensAction_db]
      exact hfind
    | getUserReferralChain uid =>
      simp only [runAction, getUserReferralChainAction_db]
      exact hfind
    | getPendingReferralCommissions =>
      simp only [runAction, getPendingReferralCommissionsAction_db]
      exact hfind
    | analyzeReferralPerformance uid =>
      simp only [runAction, analyzeReferralPerformanceAction_db]
      exact hfind
    | approveToken tid adm notes =>
      simp only [runAction]
      cases hf : findDoc db.unifiedTokens tid with
      | none =>
        unfold approveTokenAction
        rw [hf]
        exact hfind
      | some td =>
        rw [approveTokenAction_found db now tid adm notes hf]
        by_cases hstd : td.status ≠ .pending
        · rw [if_pos hstd]
          exact hfind
        · rw [if_neg hstd]
          have hne : tid ≠ i := by
            intro hti
            rw [hti, hfind] at hf
            injection hf with h
            have hp : t.status = .pending := by rw [h]; exact not_not.1 hstd
            exact hst hp
          by_cases hty : td.type = .raffle_entry
          · rw [if_pos hty]
            exact (findDoc_updateFirst_ne _ hne).trans hfind
          · rw [if_neg hty]
            exact hfind
    | cleanupExpiredTokens =>
      simp only [runAction]
      by_cases h0 : (markExpiredDocs now 100 db.unifiedTokens).2 = 0
      · rw [show cleanupExpiredTokensAction false db now = (db, .okDeleted 0) from by
          unfold cleanupExpiredTokensAction
          simp [h0]]
        exact hfind
      · rw [show cleanupExpiredTokensAction false db now
            = ({ db with
                  unifiedTokens := (markExpiredDocs now 100 db.unifiedTokens).1 },
               .okDeleted (markExpiredDocs now 100 db.unifiedTokens).2) from by
          unfold cleanupExpiredTokensAction
          simp [h0]]
        exact findDoc_markExpiredDocs_not_pending 100 hfind hst
    | migrateTransactionToToken trid adm =>
      simp only [runAction]
      cases hf : findDoc db.transactions trid with
      | none =>
        unfold migrateTransactionToTokenAction
        rw [hf]
        exact hfind
      | some td =>
        unfold migrateTransactionToTokenAction
        rw [hf]
        exact findDoc_append_left hfind
    | processDepositReferral uid amt code =>
      simp only [runAction]
      unfold processDepositReferralAction
      cases code with
      | none => exact hfind
      | some c =>
        dsimp only
        by_cases hc : c = ""
        · rw [if_pos hc]
          exact hfind
        · rw [if_neg hc]
          cases hq : queryReferrer db c with
          | none => exact hfind
          | some pr =>
            obtain ⟨rid, ru⟩ := pr
            dsimp only
            by_cases hu : hasDoc db.users uid = true
            · rw [if_pos hu]
              exact findDoc_append_left hfind
            · rw [if_neg hu]
              exact hfind
    | approveReferralCommission tid adm =>
      simp only [runAction]
      cases hf : findDoc db.unifiedTokens tid with
      | none =>
        unfold approveReferralCommissionAction
        rw [hf]
        exact hfind
      | some td =>
        rw [approveReferralCommissionAction_found db now tid adm hf]
        by_cases hstd : td.status ≠ .pending
        · rw [if_pos hstd]
          exact hfind
        · rw [if_neg hstd]
          have hne : tid ≠ i := by
            intro hti
            rw [hti, hfind] at hf
            injection hf with h
            have hp : t.status = .pending := by rw [h]; exact not_not.1 hstd
            exact hst hp
          by_cases hhas : hasDoc db.users td.userId = true
          · rw [if_pos hhas]
            exact (findDoc_updateFirst_ne _ hne).trans hfind
          · rw [if_neg hhas]
            exact hfind
  refine ⟨hmain, ?_, fun uid ty amt e => ⟨_, rfl, rfl⟩⟩
  intro i t t2 hfind hfind2 hne
  by_cases hp : t.status = .pending
  · rw [hp] at hne
    exact ⟨hp, hne⟩
  · have hkeep := hmain i t hfind hp
    rw [hkeep] at hfind2
    injection hfind2 with h
    rw [← h] at hne
    exact absurd rfl hne

/-- Witness for the amended C1 at a concrete action and database. -/
theorem token_status_transitions_witness :
    (∀ i t, findDoc dbSettled.unifiedTokens i = some t → t.status ≠ .pending →
        findDoc ((runAction .cleanupExpiredTokens false dbSettled 5).1).unifiedTokens i
          = some t)
    ∧ (∀ i t t2, findDoc dbSettled.unifiedTokens i = some t →
        findDoc ((runAction .cleanupExpiredTokens false dbSettled 5).1).unifiedTokens i
          = some t2 →
        t2.status ≠ t.status → t.status = .pending ∧ t2.status ≠ .pending)
    ∧ (∀ uid ty amt e, ∃ tok,
        ((runAction (.createUnifiedToken uid ty amt e) false dbSettled 5).1).unifiedTokens
          = dbSettled.unifiedTokens ++ [(freshId dbSettled.nextId, tok)]
        ∧ tok.status = .pending) :=
  token_status_transitions .cleanupExpiredTokens dbSettled 5
    (fun _ _ _ h => ServerAction.noConfusion h)
    (fun _ _ h => ServerAction.noConfusion h)

theorem balance_findDoc_updateFirst {col : List (DocId × User)} {j k : DocId}
    (f : User → User) (hf : ∀ u, (f u).balance = u.balance) :
    (findDoc (updateFirst col j f) k).map User.balance
      = (findDoc col k).map User.balance :=
  map_findDoc_updateFirst f User.balance hf

theorem processDepositReferralAction_false_def (db : DB) (now : Time)
    (uid : DocId) (amt : Amount) (code : Option String) :
    processDepositReferralAction false db now uid amt code =
      match code with
      | none => (db, .okUnit)
      | some c =>
        if c = "" then (db, .okUnit)
        else
          match queryReferrer db c with
          | none => (db, .failure "Geçersiz referral kodu")
          | some (referrerId, _) =>
            if hasDoc db.users uid then
              ({ db with
                  unifiedTokens := db.unifiedTokens ++ [(freshId db.nextId,
                    { userId := referrerId, type := .referral_commission,
                      amount := amt * commissionRate, status := .pending,
                      createdAt := now,
                      expiresAt := some (now + 30 * 24 * 60 * 60 * 1000) })]
                  nextId := db.nextId + 1
                  users :=
                    updateFirst
                      (updateFirst db.users referrerId
                        (applyReferrerStats now (amt * commissionRate)))
                      uid (fun u =>
                        { u with referredBy := some referrerId,
                                 referralProcessedAt := some now }) },
               .okCommission (amt * commissionRate))
            else (db, .failure "Referral işlemi başarısız") := rfl

/-- processDepositReferralAction touches referralStats, referredBy and
referralProcessedAt fields only, never a balance. -/
theorem processDepositReferralAction_balance (db : DB) (now : Time)
    (uid : DocId) (amt : Amount) (code : Option String) (i : DocId) :
    balanceOf ((processDepositReferralAction false db now uid amt code).1) i
      = balanceOf db i := by
  rw [processDepositReferralAction_false_def]
  cases code with
  | none => rfl
  | some c =>
    dsimp only
    by_cases hc : c = ""
    · rw [if_pos hc]
    · rw [if_neg hc]
      cases hq : queryReferrer db c with
      | none => rfl
      | some pr =>
        obtain ⟨rid, ru⟩ := pr
        dsimp only
        by_cases hu : hasDoc db.users uid = true
        · rw [if_pos hu]
          unfold balanceOf
          dsimp only
          rw [balance_findDoc_updateFirst
                (fun u => { u with referredBy := some rid,
                                   referralProcessedAt := some now })
                (fun u => rfl),
              balance_findDoc_updateFirst
                (applyReferrerStats now (amt * commissionRate))
                (fun u => rfl)]
        · rw [if_neg hu]

/-- C2: a user balance is changed only by approveTokenAction and
approveReferralCommissionAction, and only in the very step whose transaction
moves the touched token from pending to approved; every other exported
operation (in particular processDepositReferralAction, which writes only
referralStats, referredBy and referralProcessedAt fields) leaves every
balance unchanged. -/
theorem balance_changes_only_on_approval (a : ServerAction) (db : DB)
    (now : Time) (i : DocId)
    (hchange : balanceOf ((runAction a false db now).1) i ≠ balanceOf db i) :
    (∃ tid adm notes, a = .approveToken tid adm notes
        ∧ ∃ t, findDoc db.unifiedTokens tid = some t ∧ t.status = .pending
          ∧ t.userId = i
          ∧ ∃ t2, findDoc ((runAction a false db now).1).unifiedTokens tid
                = some t2
              ∧ t2.status = .approved)
    ∨ (∃ tid adm, a = .approveReferralCommission tid adm
        ∧ ∃ t, findDoc db.unifiedTokens tid = some t ∧ t.status = .pending
          ∧ t.userId = i
          ∧ ∃ t2, findDoc ((runAction a false db now).1).unifiedTokens tid
                = some t2
              ∧ t2.status = .approved) := by
  cases a with
  | createUnifiedToken uid ty amt e =>
    refine absurd ?_ hchange
    simp only [runAction]
    unfold balanceOf
    rw [createUnifiedTokenAction_users]
  | updateUnifiedToken tid upd =>
    refine absurd ?_ hchange
    simp only [runAction]
    unfold balanceOf
    rw [updateUnifiedTokenAction_users]
  | rejectToken tid adm r =>
    refine absurd ?_ hchange
    simp only [runAction]
    unfold balanceOf
    rw [rejectTokenAction_users]
  | cleanupExpiredTokens =>
    refine absurd ?_ hchange
    simp only [runAction]
    unfold balanceOf
    rw [cleanupExpiredTokensAction_users]
  | migrateTransactionToToken trid adm =>
    refine absurd ?_ hchange
    simp only [runAction]
    unfold balanceOf
    rw [migrateTransactionToTokenAction_users]
  | processDepositReferral uid amt code =>
    refine absurd ?_ hchange
    simp only [runAction]
    exact processDepositReferralAction_balance db now uid amt code i
  | getUnifiedToken tid =>
    refine absurd ?_ hchange
    simp only [runAction, getUnifiedTokenAction_db]
  | getUserUnifiedTokens uid ty st n =>
    refine absurd ?_ hchange
    simp only [runAction, getUserUnifiedTokensAction_db]
  | getTokenStatistics =>
    refine absurd ?_ hchange
    simp only [runAction, getTokenStatisticsAction_db]
  | getUserReferralStats uid =>
    refine absurd ?_ hchange
    simp only [runAction, getUserReferralStatsAction_db]
  | getUserReferralCommissionTokens uid =>
    refine absurd ?_ hchange
    simp only [runAction, getUserReferralCommissionTokensAction_db]
  | getUserReferralChain uid =>
    refine absurd ?_ hchange
    simp only [runAction, getUserReferralChainAction_db]
  | getPendingReferralCommissions =>
    refine absurd ?_ hchange
    simp only [runAction, getPendingReferralCommissionsAction_db]
  | analyzeReferralPerformance uid =>
    refine absurd ?_ hchange
    simp only [runAction, analyzeReferralPerformanceAction_db]
  | approveToken tid adm notes =>
    refine absurd ?_ hchange
    simp only [runAction]
    unfold balanceOf
    rw [approveTokenAction_users]
  | approveReferralCommission tid adm =>
    cases hf : findDoc db.unifiedTokens tid with
    | none =>
      refine absurd ?_ hchange
      simp only [runAction]
      unfold approveReferralCommissionAction
      rw [hf]
      rfl
    | some td =>
      by_cases hstd : td.status ≠ .pending
      · refine absurd ?_ hchange
        simp only [runAction]
        rw [approveReferralCommissionAction_found db now tid adm hf, if_pos hstd]
      · by_cases hhas : hasDoc db.users td.userId = true
        · by_cases hui : td.userId = i
          · refine Or.inr ⟨tid, adm, rfl, td, hf, not_not.1 hstd, hui, ?_⟩
            simp only [runAction]
            rw [approveReferralCommissionAction_found db now tid adm hf,
                if_neg hstd, if_pos hhas]
            exact ⟨_, findDoc_updateFirst_self _ hf, rfl⟩
          · refine absurd ?_ hchange
            simp only [runAction]
            rw [approveReferralCommissionAction_found db now tid adm hf,
                if_neg hstd, if_pos hhas]
            unfold balanceOf
            dsimp only
            rw [findDoc_updateFirst_ne _ hui]
        · refine absurd ?_ hchange
          simp only [runAction]
          rw [approveReferralCommissionAction_found db now tid adm hf,
              if_neg hstd, if_neg hhas]

/-- A pending referral-commission token of amount 5 owned by user u1. -/
def tokPendingCommission : UnifiedToken :=
  { userId := "u1", type := .referral_commission, amount := 5,
    status := .pending, createdAt := 0 }

/-- A database holding the pending commission token and its owner. -/
def dbPendingCommission : DB :=
  { unifiedTokens := [("t1", tokPendingCommission)], users := [("u1", {})] }

/-- Witness for C2: approving the concrete pending commission token through
approveReferralCommissionAction changes the owner balance, and the
characterization holds there. -/
theorem balance_changes_only_on_approval_witness :
    (balanceOf ((runAction (.approveReferralCommission "t1" "a1") false
        dbPendingCommission 1).1) "u1"
        ≠ balanceOf dbPendingCommission "u1")
    ∧ ((∃ tid adm notes,
          ServerAction.approveReferralCommission "t1" "a1"
            = .approveToken tid adm notes
          ∧ ∃ t, findDoc dbPendingCommission.unifiedTokens tid = some t
            ∧ t.status = .pending
            ∧ t.userId = "u1"
            ∧ ∃ t2, findDoc ((runAction (.approveReferralCommission "t1" "a1")
                  false dbPendingCommission 1).1).unifiedTokens tid = some t2
                ∧ t2.status = .approved)
      ∨ (∃ tid adm,
          ServerAction.approveReferralCommission "t1" "a1"
            = .approveReferralCommission tid adm
          ∧ ∃ t, findDoc dbPendingCommission.unifiedTokens tid = some t
            ∧ t.status = .pending
            ∧ t.userId = "u1"
            ∧ ∃ t2, findDoc ((runAction (.approveReferralCommission "t1" "a1")
                  false dbPendingCommission 1).1).unifiedTokens tid = some t2
                ∧ t2.status = .approved)) := by
  have hch : balanceOf ((runAction (.approveReferralCommission "t1" "a1") false
      dbPendingCommission 1).1) "u1" ≠ balanceOf dbPendingCommission "u1" := by
    have h1 : balanceOf ((runAction (.approveReferralCommission "t1" "a1")
        false dbPendingCommission 1).1) "u1" = some (0 + 5) := rfl
    have h2 : balanceOf dbPendingCommission "u1" = some 0 := rfl
    rw [h1, h2]
    simp
  exact ⟨hch, balance_changes_only_on_approval
    (.approveReferralCommission "t1" "a1") dbPendingCommission 1 "u1" hch⟩

theorem statsInvariant_of_referralStats {u v : User}
    (h : v.referralStats = u.referralStats) (hu : statsInvariant u) :
    statsInvariant v := by
  unfold statsInvariant at hu ⊢
  rw [h]
  exact hu

theorem commissionsOf_of_referralStats {u v : User}
    (h : v.referralStats = u.referralStats) : commissionsOf v = commissionsOf u := by
  unfold commissionsOf
  rw [h]

theorem statsInvariant_applyReferrerStats (now : Time) (c : Amount) {u : User}
    (hu : statsInvariant u) : statsInvariant (applyReferrerStats now c u) := by
  unfold statsInvariant at hu ⊢
  unfold applyReferrerStats
  simp only [Option.getD_some]
  linarith [hu]

theorem statsInvariant_applyCommissionApproval (amt : Amount) {u : User}
    (hu : statsInvariant u) : statsInvariant (applyCommissionApproval amt u) := by
  unfold statsInvariant at hu ⊢
  unfold applyCommissionApproval
  simp only [Option.getD_some]
  linarith [hu]

theorem findDoc_exists_of_mem {l : List (DocId × α)} {i : DocId} {x : α}
    (h : (i, x) ∈ l) : ∃ d, findDoc l i = some d := by
  induction l with
  | nil => cases h
  | cons hd tl ih =>
    obtain ⟨j, y⟩ := hd
    by_cases hji : j = i
    · exact ⟨y, by simp [findDoc, hji]⟩
    · rcases List.mem_cons.1 h with h | h
      · injection h with h1 h2
        exact absurd h1.symm hji
      · obtain ⟨d, hd2⟩ := ih h
        exact ⟨d, by simp [findDoc, hji, hd2]⟩

theorem queryReferrer_findDoc {db : DB} {c : String} {rid : DocId} {ru : User}
    (h : queryReferrer db c = some (rid, ru)) :
    ∃ u, findDoc db.users rid = some u := by
  unfold queryReferrer at h
  cases hl : db.users.filter (fun p => p.2.referralCode == some c) with
  | nil =>
    rw [hl] at h
    cases h
  | cons a as =>
    rw [hl] at h
    injection h with h1
    subst h1
    exact findDoc_exists_of_mem (List.mem_of_mem_filter
      (hl.symm ▸ List.mem_cons_self (rid, ru) as))

theorem statsInvariant_findDoc_updateFirst {users : List (DocId × User)}
    {j i : DocId} (f : User → User)
    (hpres : ∀ u, statsInvariant u → statsInvariant (f u))
    (hbase : ∀ u, findDoc users i = some u → statsInvariant u)
    {u2 : User} (h : findDoc (updateFirst users j f) i = some u2) :
    statsInvariant u2 := by
  rw [findDoc_updateFirst] at h
  split at h
  · cases hu : findDoc users i with
    | none =>
      rw [hu] at h
      cases h
    | some u =>
      rw [hu] at h
      injection h with h2
      exact h2 ▸ hpres u (hbase u hu)
  · exact hbase u2 h

/-- Every action preserves the referrer-statistics invariant on every user
document. -/
theorem statsInvariant_preserved (a : ServerAction) (db : DB) (now : Time)
    (hinv : ∀ i u, findDoc db.users i = some u → statsInvariant u) :
    ∀ i u2, findDoc ((runAction a false db now).1).users i = some u2 →
      statsInvariant u2 := by
  intro i u2 hfind2
  cases a with
  | createUnifiedToken uid ty amt e =>
    simp only [runAction] at hfind2
    rw [createUnifiedTokenAction_users] at hfind2
    exact hinv i u2 hfind2
  | updateUnifiedToken tid upd =>
    simp only [runAction] at hfind2
    rw [updateUnifiedTokenAction_users] at hfind2
    exact hinv i u2 hfind2
  | rejectToken tid adm r =>
    simp only [runAction] at hfind2
    rw [rejectTokenAction_users] at hfind2
    exact hinv i u2 hfind2
  | cleanupExpiredTokens =>
    simp only [runAction] at hfind2
    rw [cleanupExpiredTokensAction_users] at hfind2
    exact hinv i u2 hfind2
  | migrateTransactionToToken trid adm =>
    simp only [runAction] at hfind2
    rw [migrateTransactionToTokenAction_users] at hfind2
    exact hinv i u2 hfind2
  | getUnifiedToken tid =>
    simp only [runAction, getUnifiedTokenAction_db] at hfind2
    exact hinv i u2 hfind2
  | getUserUnifiedTokens uid ty st n =>
    simp only [runAction, getUserUnifiedTokensAction_db] at hfind2
    exact hinv i u2 hfind2
  | getTokenStatistics =>
    simp only [runAction, getTokenStatisticsAction_db] at hfind2
    exact hinv i u2 hfind2
  | getUserReferralStats uid =>
    simp only [runAction, getUserReferralStatsAction_db] at hfind2
    exact hinv i u2 hfind2
  | getUserReferralCommissionTokens uid =>
    simp only [runAction, getUserReferralCommissionTokensAction_db] at hfind2
    exact hinv i u2 hfind2
  | getUserReferralChain uid =>
    simp only [runAction, getUserReferralChainAction_db] at hfind2
    exact hinv i u2 hfind2
  | getPendingReferralCommissions =>
    simp only [runAction, getPendingReferralCommissionsAction_db] at hfind2
    exact hinv i u2 hfind2
  | analyzeReferralPerformance uid =>
    simp only [runAction, analyzeReferralPerformanceAction_db] at hfind2
    exact hinv i u2 hfind2
  | approveToken tid adm notes =>
    simp only [runAction] at hfind2
    rw [approveTokenAction_users] at hfind2
    exact hinv i u2 hfind2
  | processDepositReferral uid amt code =>
    simp only [runAction] at hfind2
    rw [processDepositReferralAction_false_def] at hfind2
    cases code with
    | none => exact hinv i u2 hfind2
    | some c =>
      dsimp only at hfind2
      by_cases hc : c = ""
      · rw [if_pos hc] at hfind2
        exact hinv i u2 hfind2
      · rw [if_neg hc] at hfind2
        cases hq : queryReferrer db c with
        | none =>
          rw [hq] at hfind2
          exact hinv i u2 hfind2
        | some pr =>
          obtain ⟨rid, ru⟩ := pr
          rw [hq] at hfind2
          dsimp only at hfind2
          by_cases hu : hasDoc db.users uid = true
          · rw [if_pos hu] at hfind2
            exact statsInvariant_findDoc_updateFirst
              (fun u => { u with referredBy := some rid,
                                 referralProcessedAt := some now })
              (fun u hu2 => statsInvariant_of_referralStats rfl hu2)
              (fun u h => statsInvariant_findDoc_updateFirst
                (applyReferrerStats now (amt * commissionRate))
                (fun v hv => statsInvariant_applyReferrerStats now
                  (amt * commissionRate) hv)
                (fun v hv => hinv i v hv) h)
              hfind2
          · rw [if_neg hu] at hfind2
            exact hinv i u2 hfind2
  | approveReferralCommission tid adm =>
    simp only [runAction] at hfind2
    cases hf : findDoc db.unifiedTokens tid with
    | none =>
      unfold approveReferralCommissionAction at hfind2
      rw [hf] at hfind2
      exact hinv i u2 hfind2
    | some td =>
      rw [approveReferralCommissionAction_found db now tid adm hf] at hfind2
      by_cases hstd : td.status ≠ .pending
      · rw [if_pos hstd] at hfind2
        exact hinv i u2 hfind2
      · rw [if_neg hstd] at hfind2
        by_cases hhas : hasDoc db.users td.userId = true
        · rw [if_pos hhas] at hfind2
          exact statsInvariant_findDoc_updateFirst _
            (fun u hu => statsInvariant_applyCommissionApproval td.amount hu)
            (fun u h => hinv i u h) hfind2
        · rw [if_neg hhas] at hfind2
          exact hinv i u2 hfind2

/-- No operation other than processDepositReferralAction and
approveReferralCommissionAction touches any commissions field. -/
theorem commissions_untouched (a : ServerAction) (db : DB) (now : Time)
    (h1 : ∀ tid adm, a ≠ .approveReferralCommission tid adm)
    (h2 : ∀ uid amt code, a ≠ .processDepositReferral uid amt code)
    (i : DocId) :
    (findDoc ((runAction a false db now).1).users i).map commissionsOf
      = (findDoc db.users i).map commissionsOf := by
  cases a with
  | processDepositReferral uid amt code => exact absurd rfl (h2 uid amt code)
  | approveReferralCommission tid adm => exact absurd rfl (h1 tid adm)
  | createUnifiedToken uid ty amt e =>
    simp only [runAction]
    rw [createUnifiedTokenAction_users]
  | updateUnifiedToken tid upd =>
    simp only [runAction]
    rw [updateUnifiedTokenAction_users]
  | rejectToken tid adm r =>
    simp only [runAction]
    rw [rejectTokenAction_users]
  | cleanupExpiredTokens =>
    simp only [runAction]
    rw [cleanupExpiredTokensAction_users]
  | migrateTransactionToToken trid adm =>
    simp only [runAction]
    rw [migrateTransactionToTokenAction_users]
  | getUnifiedToken tid =>
    simp only [runAction, getUnifiedTokenAction_db]
  | getUserUnifiedTokens uid ty st n =>
    simp only [runAction, getUserUnifiedTokensAction_db]
  | getTokenStatistics =>
    simp only [runAction, getTokenStatisticsAction_db]
  | getUserReferralStats uid =>
    simp only [runAction, getUserReferralStatsAction_db]
  | getUserReferralCommissionTokens uid =>
    simp only [runAction, getUserReferralCommissionTokensAction_db]
  | getUserReferralChain uid =>
    simp only [runAction, getUserReferralChainAction_db]
  | getPendingReferralCommissions =>
    simp only [runAction, getPendingReferralCommissionsAction_db]
  | analyzeReferralPerformance uid =>
    simp only [runAction, analyzeReferralPerformanceAction_db]
  | approveToken tid adm notes =>
    simp only [runAction]
    rw [approveTokenAction_users]

/-- C9: the referrer-statistics invariant totalCommissions =
pendingCommissions + approvedCommissions is preserved by every operation:
processDepositReferralAction adds the same commission amount to
totalCommissions and pendingCommissions, approveReferralCommissionAction
moves exactly the token amount from pendingCommissions to
approvedCommissions leaving totalCommissions unchanged, and no other
operation touches these fields. -/
theorem referralStats_invariant (a : ServerAction) (db : DB) (now : Time)
    (hinv : ∀ i u, findDoc db.users i = some u → statsInvariant u) :
    (∀ i u2, findDoc ((runAction a false db now).1).users i = some u2 →
        statsInvariant u2)
    ∧ ((∀ tid adm, a ≠ .approveReferralCommission tid adm) →
        (∀ uid amt code, a ≠ .processDepositReferral uid amt code) →
        ∀ i, (findDoc ((runAction a false db now).1).users i).map commissionsOf
            = (findDoc db.users i).map commissionsOf)
    ∧ (∀ uid amt code c, a = .processDepositReferral uid amt code →
        (runAction a false db now).2 = .okCommission c →
        ∃ rid u u2, findDoc db.users rid = some u
          ∧ findDoc ((runAction a false db now).1).users rid = some u2
          ∧ (u2.referralStats.getD {}).totalCommissions
              = (u.referralStats.getD {}).totalCommissions + c
          ∧ (u2.referralStats.getD {}).pendingCommissions
              = (u.referralStats.getD {}).pendingCommissions + c)
    ∧ (∀ tid adm t, a = .approveReferralCommission tid adm →
        findDoc db.unifiedTokens tid = some t →
        (runAction a false db now).2 = .okUnit →
        ∃ u u2, findDoc db.users t.userId = some u
          ∧ findDoc ((runAction a false db now).1).users t.userId = some u2
          ∧ (u2.referralStats.getD {}).approvedCommissions
              = (u.referralStats.getD {}).approvedCommissions + t.amount
          ∧ (u2.referralStats.getD {}).pendingCommissions
              = (u.referralStats.getD {}).pendingCommissions - t.amount
          ∧ (u2.referralStats.getD {}).totalCommissions
              = (u.referralStats.getD {}).totalCommissions) := by
  refine ⟨statsInvariant_preserved a db now hinv,
    fun h1 h2 i => commissions_untouched a db now h1 h2 i, ?_, ?_⟩
  · intro uid amt code c ha hres
    subst ha
    simp only [runAction] at hres ⊢
    rw [processDepositReferralAction_false_def] at hres ⊢
    cases code with
    | none => exact ActionResult.noConfusion hres
    | some cs =>
      dsimp only at hres ⊢
      by_cases hc : cs = ""
      · rw [if_pos hc] at hres
        exact ActionResult.noConfusion hres
      · rw [if_neg hc] at hres ⊢
        cases hq : queryReferrer db cs with
        | none =>
          rw [hq] at hres
          exact ActionResult.noConfusion hres
        | some pr =>
          obtain ⟨rid, ru⟩ := pr
          rw [hq] at hres
          dsimp only at hres ⊢
          by_cases hu : hasDoc db.users uid = true
          · rw [if_pos hu] at hres ⊢
            have hcc : amt * commissionRate = c := by
              dsimp only at hres
              injection hres
            obtain ⟨u, hu0⟩ := queryReferrer_findDoc hq
            by_cases hui : uid = rid
            · refine ⟨rid, u,
                { (applyReferrerStats now (amt * commissionRate) u) with
                    referredBy := some rid, referralProcessedAt := some now },
                hu0, ?_, ?_, ?_⟩
              · subst hui
                exact findDoc_updateFirst_self _ (findDoc_updateFirst_self _ hu0)
              · rw [← hcc]
                rfl
              · rw [← hcc]
                rfl
            · refine ⟨rid, u, applyReferrerStats now (amt * commissionRate) u,
                hu0, ?_, ?_, ?_⟩
              · exact (findDoc_updateFirst_ne _ hui).trans
                  (findDoc_updateFirst_self _ hu0)
              · rw [← hcc]
                rfl
              · rw [← hcc]
                rfl
          · rw [if_neg hu] at hres
            exact ActionResult.noConfusion hres
  · intro tid adm t ha hfindTok hres
    subst ha
    simp only [runAction] at hres ⊢
    rw [approveReferralCommissionAction_found db now tid adm hfindTok] at hres ⊢
    by_cases hstd : t.status ≠ .pending
    · rw [if_pos hstd] at hres
      exact ActionResult.noConfusion hres
    · rw [if_neg hstd] at hres ⊢
      by_cases hhas : hasDoc db.users t.userId = true
      · rw [if_pos hhas] at hres ⊢
        obtain ⟨u, hu0⟩ : ∃ u, findDoc db.users t.userId = some u := by
          unfold hasDoc at hhas
          cases h : findDoc db.users t.userId with
          | none =>
            rw [h] at hhas
            simp at hhas
          | some u => exact ⟨u, rfl⟩
        exact ⟨u, applyCommissionApproval t.amount u, hu0,
          findDoc_updateFirst_self _ hu0, rfl, rfl, rfl⟩
      · rw [if_neg hhas] at hres
        exact ActionResult.noConfusion hres

/-- Witness for C9 at a concrete referral deposit. -/
theorem referralStats_invariant_witness :
    (∀ i u2, findDoc ((runAction (.processDepositReferral "u2" 100 (some "CODE"))
          false dbTwoUsers 0).1).users i = some u2 → statsInvariant u2)
    ∧ ((∀ tid adm, ServerAction.processDepositReferral "u2" 100 (some "CODE")
          ≠ .approveReferralCommission tid adm) →
        (∀ uid amt code, ServerAction.processDepositReferral "u2" 100 (some "CODE")
          ≠ .processDepositReferral uid amt code) →
        ∀ i, (findDoc ((runAction (.processDepositReferral "u2" 100 (some "CODE"))
              false dbTwoUsers 0).1).users i).map commissionsOf
            = (findDoc dbTwoUsers.users i).map commissionsOf)
    ∧ (∀ uid amt code c,
        ServerAction.processDepositReferral "u2" 100 (some "CODE")
          = .processDepositReferral uid amt code →
        (runAction (.processDepositReferral "u2" 100 (some "CODE"))
            false dbTwoUsers 0).2 = .okCommission c →
        ∃ rid u u2, findDoc dbTwoUsers.users rid = some u
          ∧ findDoc ((runAction (.processDepositReferral "u2" 100 (some "CODE"))
                false dbTwoUsers 0).1).users rid = some u2
          ∧ (u2.referralStats.getD {}).totalCommissions
              = (u.referralStats.getD {}).totalCommissions + c
          ∧ (u2.referralStats.getD {}).pendingCommissions
              = (u.referralStats.getD {}).pendingCommissions + c)
    ∧ (∀ tid adm t,
        ServerAction.processDepositReferral "u2" 100 (some "CODE")
          = .approveReferralCommission tid adm →
        findDoc dbTwoUsers.unifiedTokens tid = some t →
        (runAction (.processDepositReferral "u2" 100 (some "CODE"))
            false dbTwoUsers 0).2 = .okUnit →
        ∃ u u2, findDoc dbTwoUsers.users t.userId = some u
          ∧ findDoc ((runAction (.processDepositReferral "u2" 100 (some "CODE"))
                false dbTwoUsers 0).1).users t.userId = some u2
          ∧ (u2.referralStats.getD {}).approvedCommissions
              = (u.referralStats.getD {}).approvedCommissions + t.amount
          ∧ (u2.referralStats.getD {}).pendingCommissions
              = (u.referralStats.getD {}).pendingCommissions - t.amount
          ∧ (u2.referralStats.getD {}).totalCommissions
              = (u.referralStats.getD {}).totalCommissions) :=
  referralStats_invariant (.processDepositReferral "u2" 100 (some "CODE"))
    dbTwoUsers 0
    (by
      intro i u h
      simp only [dbTwoUsers, findDoc] at h
      split at h
      · injection h with h2
        rw [← h2]
        simp [statsInvariant]
      · split at h
        · injection h with h2
          rw [← h2]
          simp [statsInvariant]
        · cases h)
